import Mathlib

/-!
# Verification of the PPKS (Practical Parallel Key Switch) library core

This file embeds the core of the PPKS library (package `ppks`, files
`ppks.go` and its proof-bearing twin) and proves the algebraic and
behavioural properties claimed by its specification.

## Modelling conventions

* The elliptic-curve backend is out of scope for the library (it is the
  `sm2` package, used as a black-box group engine).  The SM2 curve has
  cofactor 1, so its point group is cyclic of prime order `n`; we embed a
  point by its discrete logarithm with respect to the generator `B`.
  Concretely a point is an element of `ZMod nOrd`, point addition
  (`curve.Add`) is addition, `curve.ScalarMult(P, k.Bytes())` is
  multiplication by the class of `k`, `curve.ScalarBaseMult` is the cast
  of the scalar, the generator `(Gx, Gy)` is `1`, and negating a
  `y`-coordinate followed by reduction mod `p` (which sends `(x, y)` to
  `(x, p - y)`, the inverse point) is group negation.
* Go `big.Int` scalars are `Nat` (they are non-negative in every code
  path modelled here), with every `Mod` made explicit; Go's
  `big.Int.Mod` is Euclidean, so a possibly-negative difference becomes
  `Int.emod` followed by `Int.toNat`.
* The SM3 hash is out of scope for the library; the Fiat–Shamir
  transcript hash is therefore a parameter `Hh : List Pt → Nat` mapping
  the ordered list of hashed points (the source hashes, in order, the
  big-endian bytes of `x` then `y` of each point, so the digest is a
  function of that list) to the integer formed from the first 32 digest
  bytes.
* Functions that draw from the random source are derandomized: the value
  that `randFieldElement` returned is passed as an explicit argument.
  `randFieldElement` itself is modelled separately, from the bytes read.
* A Go runtime panic (indexing an empty slice) is the `panicked` result;
  a non-nil returned `error` would be `fail` with its kind.  The source
  never returns a non-nil error apart from propagating entropy failures.
-/

namespace Ppks

/-- Order `n` of the SM2 base-point group (`curve.Params().N`); the group
of curve points has exactly this (prime) order because the cofactor is 1. -/
def nOrd : Nat := 0xFFFFFFFEFFFFFFFFFFFFFFFFFFFFFFFF7203DF6B21C6052B53BBF40939D54123

/-- A curve point, embedded by its discrete logarithm w.r.t. the generator. -/
abbrev Pt := ZMod nOrd

/-- Backend `curve.Add`. -/
def ecAdd (P Q : Pt) : Pt := P + Q

/-- Backend `curve.ScalarMult(P.X, P.Y, k.Bytes())`. -/
def ecScalarMult (k : Nat) (P : Pt) : Pt := (k : Pt) * P

/-- Backend `curve.ScalarBaseMult(k.Bytes())`. -/
def ecScalarBaseMult (k : Nat) : Pt := (k : Pt)

/-- The generator `B = (curve.Params().Gx, curve.Params().Gy)`. -/
def ecGenerator : Pt := 1

/-- `y.Neg(y); y.Mod(y, p)` applied to the `y`-coordinate of a point:
`(x, (p - y) % p)` is the inverse point, i.e. group negation. -/
def ecNegY (P : Pt) : Pt := -P

/-- `CipherText` / a share: a pair of points `(K, C)`. -/
structure CipherText where
  K : Pt
  C : Pt
  deriving DecidableEq

/-- `sm2.PrivateKey`: the embedded public key `(X, Y)` plus the scalar `D`. -/
structure PrivateKey where
  pub : Pt
  D : Nat
  deriving DecidableEq

/-- `GetPubKey`: returns the public key stored in `priv`. -/
def GetPubKey (priv : PrivateKey) : Pt := priv.pub

/-- The error kinds named by the specification (§7). -/
inductive ErrKind where
  | emptyAggregation
  | entropyFailure
  deriving DecidableEq

/-- Outcome of a Go call: a value, a runtime panic, or a returned error. -/
inductive GoResult (α : Type) where
  | ok (a : α)
  | panicked
  | fail (kind : ErrKind)
  deriving DecidableEq

/-- Mapping over the `ok` case of a `GoResult`. -/
def GoResult.map {α β : Type} (f : α → β) : GoResult α → GoResult β
  | .ok a => .ok (f a)
  | .panicked => .panicked
  | .fail k => .fail k

/-- Loop body of `CollPrivKey`: `collPriv.Add(collPriv, privs[i].D)`
followed by the conditional reduction
`if collPriv.Cmp(N) >= 0 { collPriv.Mod(collPriv, N) }`. -/
def collStep (acc : Nat) (p : PrivateKey) : Nat :=
  let s := acc + p.D
  if nOrd ≤ s then s % nOrd else s

/-- `CollPrivKey(privs)`: sums the private scalars (with the conditional
`mod n`) starting from `0`, then recomputes the public key by
`ScalarBaseMult`.  `privs[0]` on an empty slice is a runtime panic. -/
def CollPrivKey (privs : List PrivateKey) : GoResult PrivateKey :=
  match privs with
  | [] => .panicked
  | _ :: _ =>
    let collPriv := privs.foldl collStep 0
    .ok { pub := ecScalarBaseMult collPriv, D := collPriv }

/-- `CollPubKey(pubs)`: point sum of the public keys, accumulated from
`pubs[0]`; `pubs[0]` on an empty slice is a runtime panic. -/
def CollPubKey (pubs : List Pt) : GoResult Pt :=
  match pubs with
  | [] => .panicked
  | p :: rest => .ok (rest.foldl (fun acc q => ecAdd acc q) p)

/-- `PointEncrypt(pub, D)` derandomized: `r` is the scalar returned by
`randFieldElement`.  `ct.K = r·B`, `ct.C = r·pub + D`. -/
def PointEncrypt (pub : Pt) (D : Pt) (r : Nat) : CipherText :=
  { K := ecScalarBaseMult r
    C := ecAdd (ecScalarMult r pub) D }

/-- `PointDecrypt(ct, priv)` (the file that reduces mod `p` after the
`y`-negation, as the specification mandates): `rK = priv.D · ct.K`,
then `D = ct.C + (rK.x, (p - rK.y) % p) = ct.C - priv.D·ct.K`. -/
def PointDecrypt (ct : CipherText) (priv : PrivateKey) : Pt :=
  let rK := ecScalarMult priv.D ct.K
  ecAdd ct.C (ecNegY rK)

/-- `ShareCal(targetPubKey, rB, priv)` derandomized: `ri` is the scalar
returned by `randFieldElement`.  `share.K = ri·B`,
`share.C = (-(priv.D·rB)) + ri·targetPubKey` (the source negates the
`y`-coordinate of `priv.D·rB` and reduces mod `p` before the addition). -/
def ShareCal (targetPubKey : Pt) (rB : Pt) (priv : PrivateKey) (ri : Nat) : CipherText :=
  { K := ecScalarBaseMult ri
    C := ecAdd (ecNegY (ecScalarMult priv.D rB)) (ecScalarMult ri targetPubKey) }

/-- Loop body of `ShareReplace`: pointwise `curve.Add` of the next share
onto the accumulator `sigma` (the accumulator is a local struct copy, so
the input shares are not written to). -/
def sigmaStep (acc t : CipherText) : CipherText :=
  { K := ecAdd acc.K t.K, C := ecAdd acc.C t.C }

/-- `ShareReplace(shares, rct)`: folds the shares into `sigma` starting
from `(*shares)[0]` (a runtime panic when the slice is empty; the
declared `error` result is never non-nil), then returns
`(sigma.K, sigma.C + rct.C)`. -/
def ShareReplace (shares : List CipherText) (rct : CipherText) : GoResult CipherText :=
  match shares with
  | [] => .panicked
  | s :: rest =>
    let sigma := rest.foldl sigmaStep s
    .ok { K := sigma.K, C := ecAdd sigma.C rct.C }

/-- `big.Int.SetBytes`: big-endian interpretation of a byte slice. -/
def bytesToNat (b : List Nat) : Nat := b.foldl (fun acc byte => acc * 256 + byte) 0

/-- `randFieldElement(c, random)`: reads `BitSize/8 + 8` bytes (40 for
SM2); on success `k = SetBytes(b) mod (N - 1) + 1`, on a failed read the
read error is returned.  The argument is the outcome of the read. -/
def randFieldElement (readBytes : Option (List Nat)) : Option Nat :=
  match readBytes with
  | none => none
  | some b => some (bytesToNat b % (nOrd - 1) + 1)

/-- `ProofGen(y1, y2, B, Y1, Y2, A1, A2, A)` derandomized (`v1`, `v2` are
the two scalars returned by `randFieldElement`) and with the transcript
hash abstracted as `Hh`.  Commitments `T1 = v1·B`, `T2 = v2·B`,
`T3 = v1·A1 + v2·A2`; challenge `c = H(B,Y1,Y2,A1,A2,A,T1,T2,T3)` used
as-is (no reduction mod `n`); responses `r1 = (v1 - c·y1·) mod n` and
`r2 = (v2 - c·y2) mod n` computed with Euclidean `big.Int.Mod`. -/
def ProofGen (Hh : List Pt → Nat) (y1 y2 : Nat) (B Y1 Y2 A1 A2 A : Pt)
    (v1 v2 : Nat) : Nat × Nat × Nat :=
  let T1 := ecScalarMult v1 B
  let T2 := ecScalarMult v2 B
  let T3 := ecAdd (ecScalarMult v1 A1) (ecScalarMult v2 A2)
  let c := Hh [B, Y1, Y2, A1, A2, A, T1, T2, T3]
  let r1 := (((v1 : Int) - ((c * y1 % nOrd : Nat) : Int)) % (nOrd : Int)).toNat
  let r2 := (((v2 : Int) - ((c * y2 % nOrd : Nat) : Int)) % (nOrd : Int)).toNat
  (c, r1, r2)

/-- `ProofGenNoB`: as `ProofGen` but `T1`, `T2` use `ScalarBaseMult` and
the transcript hashes the curve generator in place of a caller-supplied
`B`. -/
def ProofGenNoB (Hh : List Pt → Nat) (y1 y2 : Nat) (Y1 Y2 A1 A2 A : Pt)
    (v1 v2 : Nat) : Nat × Nat × Nat :=
  let T1 := ecScalarBaseMult v1
  let T2 := ecScalarBaseMult v2
  let T3 := ecAdd (ecScalarMult v1 A1) (ecScalarMult v2 A2)
  let c := Hh [ecGenerator, Y1, Y2, A1, A2, A, T1, T2, T3]
  let r1 := (((v1 : Int) - ((c * y1 % nOrd : Nat) : Int)) % (nOrd : Int)).toNat
  let r2 := (((v2 : Int) - ((c * y2 % nOrd : Nat) : Int)) % (nOrd : Int)).toNat
  (c, r1, r2)

/-- `ProofVrf(c, r1, r2, B, Y1, Y2, A1, A2, A)`: recomputes
`T1 = r1·B + c·Y1`, `T2 = r2·B + c·Y2`, `T3 = r1·A1 + r2·A2 + c·A`,
rehashes the transcript and compares with `c`. -/
def ProofVrf (Hh : List Pt → Nat) (c r1 r2 : Nat) (B Y1 Y2 A1 A2 A : Pt) : Bool :=
  let T1 := ecAdd (ecScalarMult r1 B) (ecScalarMult c Y1)
  let T2 := ecAdd (ecScalarMult r2 B) (ecScalarMult c Y2)
  let T3 := ecAdd (ecAdd (ecScalarMult r1 A1) (ecScalarMult r2 A2)) (ecScalarMult c A)
  let cNew := Hh [B, Y1, Y2, A1, A2, A, T1, T2, T3]
  if c = cNew then true else false

/-- `ProofVrfNoB`: as `ProofVrf` but with `ScalarBaseMult` for the `r·B`
terms and the curve generator hashed in place of `B`. -/
def ProofVrfNoB (Hh : List Pt → Nat) (c r1 r2 : Nat) (Y1 Y2 A1 A2 A : Pt) : Bool :=
  let T1 := ecAdd (ecScalarBaseMult r1) (ecScalarMult c Y1)
  let T2 := ecAdd (ecScalarBaseMult r2) (ecScalarMult c Y2)
  let T3 := ecAdd (ecAdd (ecScalarMult r1 A1) (ecScalarMult r2 A2)) (ecScalarMult c A)
  let cNew := Hh [ecGenerator, Y1, Y2, A1, A2, A, T1, T2, T3]
  if c = cNew then true else false

/-- `ShareProofGen(ri, priv, share, targetPubKey, rB)`: instantiates
`ProofGen` with `y1 = ri`, `y2 = priv.D`, `B` = generator,
`Y1 = share.K`, `Y2 = priv.PublicKey`, `A1 = targetPubKey`,
`A2 = -rB` (fresh copy of `rB` with the `y`-coordinate negated and
reduced mod `p`), `A = share.C`. -/
def ShareProofGen (Hh : List Pt → Nat) (ri : Nat) (priv : PrivateKey)
    (share : CipherText) (targetPubKey : Pt) (rB : Pt) (v1 v2 : Nat) :
    Nat × Nat × Nat :=
  let B := ecGenerator
  let A2 := ecNegY rB
  ProofGen Hh ri priv.D B share.K priv.pub targetPubKey A2 share.C v1 v2

/-- `ShareProofVry(c, r1, r2, share, nodePubKey, targetPubKey, rB)`:
reassembles the public tuple (with `nodePubKey` as `Y2`) and calls
`ProofVrf`. -/
def ShareProofVry (Hh : List Pt → Nat) (c r1 r2 : Nat) (share : CipherText)
    (nodePubKey targetPubKey : Pt) (rB : Pt) : Bool :=
  let B := ecGenerator
  let A2 := ecNegY rB
  ProofVrf Hh c r1 r2 B share.K nodePubKey targetPubKey A2 share.C

/-! ## Helper lemmas -/

theorem nOrd_pos : 0 < nOrd := by decide

/-- Casting an Euclidean remainder mod `nOrd` into the point group. -/
theorem intCast_emod_ord (a : Int) : (((a % (nOrd : Int)) : Int) : Pt) = (a : Pt) := by
  conv_rhs => rw [← Int.emod_add_ediv a (nOrd : Int)]
  push_cast
  simp [ZMod.natCast_self]

/-- The response scalar `(v - c·y mod n) mod n` of `ProofGen`, cast into
the point group, is `v - c·y`. -/
theorem r_response_cast (v c y : Nat) :
    ((((((v : Int) - ((c * y % nOrd : Nat) : Int)) % (nOrd : Int)).toNat : Nat) : Pt))
      = (v : Pt) - (c : Pt) * (y : Pt) := by
  have hnz : (nOrd : Int) ≠ 0 := by
    exact_mod_cast Nat.pos_iff_ne_zero.mp nOrd_pos
  have hnn : 0 ≤ ((v : Int) - ((c * y % nOrd : Nat) : Int)) % (nOrd : Int) :=
    Int.emod_nonneg _ hnz
  calc (((((v : Int) - ((c * y % nOrd : Nat) : Int)) % (nOrd : Int)).toNat : Nat) : Pt)
      = (((((v : Int) - ((c * y % nOrd : Nat) : Int)) % (nOrd : Int)).toNat : Int) : Pt) :=
        (Int.cast_natCast _).symm
    _ = ((((v : Int) - ((c * y % nOrd : Nat) : Int)) % (nOrd : Int) : Int) : Pt) := by
        rw [Int.toNat_of_nonneg hnn]
    _ = ((((v : Int) - ((c * y % nOrd : Nat) : Int)) : Int) : Pt) := by
        rw [ZMod.intCast_mod]
    _ = (v : Pt) - (c : Pt) * (y : Pt) := by
        push_cast [ZMod.natCast_mod]
        ring

/-- The response scalars of `ProofGen` lie in `[0, nOrd)`. -/
theorem r_response_lt (v c y : Nat) :
    ((((v : Int) - ((c * y % nOrd : Nat) : Int)) % (nOrd : Int)).toNat) < nOrd := by
  have hpos : (0 : Int) < (nOrd : Int) := by exact_mod_cast nOrd_pos
  have h1 : ((v : Int) - ((c * y % nOrd : Nat) : Int)) % (nOrd : Int) < (nOrd : Int) :=
    Int.emod_lt_of_pos _ hpos
  have h2 : 0 ≤ ((v : Int) - ((c * y % nOrd : Nat) : Int)) % (nOrd : Int) :=
    Int.emod_nonneg _ (by exact_mod_cast Nat.pos_iff_ne_zero.mp nOrd_pos)
  omega

/-- `collStep` is addition when viewed in the point group. -/
theorem collStep_cast (a : Nat) (p : PrivateKey) :
    ((collStep a p : Nat) : Pt) = (a : Pt) + (p.D : Pt) := by
  simp only [collStep]
  split
  · rw [ZMod.natCast_mod]; push_cast; ring
  · push_cast; ring

/-- The `CollPrivKey` accumulator, viewed in the point group, is the sum
of the private scalars. -/
theorem collPriv_fold_cast (privs : List PrivateKey) (a : Nat) :
    ((privs.foldl collStep a : Nat) : Pt)
      = (a : Pt) + (privs.map fun p => (p.D : Pt)).sum := by
  induction privs generalizing a with
  | nil => simp
  | cons p rest ih =>
    rw [List.foldl_cons, ih, collStep_cast]
    simp [add_assoc]

/-- The `CollPubKey` fold is the point sum. -/
theorem foldl_ecAdd (l : List Pt) (a : Pt) :
    l.foldl (fun acc q => ecAdd acc q) a = a + l.sum := by
  induction l generalizing a with
  | nil => simp
  | cons q rest ih =>
    rw [List.foldl_cons, ih]
    simp [ecAdd, add_assoc]

/-- The `ShareReplace` fold is the pointwise sum of the shares. -/
theorem foldl_sigmaStep (rest : List CipherText) (s : CipherText) :
    rest.foldl sigmaStep s =
      { K := s.K + (rest.map CipherText.K).sum
        C := s.C + (rest.map CipherText.C).sum } := by
  induction rest generalizing s with
  | nil => simp
  | cons t ts ih =>
    rw [List.foldl_cons, ih]
    simp [sigmaStep, ecAdd, add_assoc]

/-- Closed form of `ShareReplace` on a nonempty share vector. -/
theorem shareReplace_eq (s : CipherText) (rest : List CipherText) (rct : CipherText) :
    ShareReplace (s :: rest) rct =
      .ok { K := ((s :: rest).map CipherText.K).sum
            C := ((s :: rest).map CipherText.C).sum + rct.C } := by
  simp [ShareReplace, foldl_sigmaStep, ecAdd, add_assoc]

/-- `ecScalarBaseMult` in the discrete-log model is the cast. -/
theorem ecScalarBaseMult_eq (k : Nat) : ecScalarBaseMult k = (k : Pt) := rfl

/-- Closed form of `CollPubKey` applied to the public keys of a nonempty
committee. -/
theorem collPubKey_map_base (k : Nat) (ks : List Nat) :
    CollPubKey ((k :: ks).map ecScalarBaseMult)
      = .ok (((k :: ks).map ecScalarBaseMult).sum) := by
  simp only [List.map_cons, CollPubKey, foldl_ecAdd, List.sum_cons]

/-! ## C2: encrypt/decrypt round-trip -/

/-- C2.  For every private key `sk` with `1 ≤ sk < n`, public key
`P = sk·B`, every curve point `D` and every sampled nonce `r` in
`[1, n-1]`, `PointDecrypt(PointEncrypt(P, D), sk)` returns `D` (with the
`y`-coordinate negation inside decryption reduced mod `p`, as the
specification mandates and as the proof-bearing source file does). -/
theorem point_encrypt_decrypt_roundtrip (sk r : Nat) (D P : Pt)
    (hsk : 1 ≤ sk ∧ sk ≤ nOrd - 1) (hr : 1 ≤ r ∧ r ≤ nOrd - 1)
    (hP : P = ecScalarBaseMult sk) (priv : PrivateKey) (hpriv : priv.D = sk) :
    PointDecrypt (PointEncrypt P D r) priv = D := by
  subst hP
  simp only [PointDecrypt, PointEncrypt, ecAdd, ecScalarMult, ecScalarBaseMult, ecNegY, hpriv]
  ring

/-- Witness for C2 at `sk = 3`, `r = 5`, `D = 11`. -/
theorem point_encrypt_decrypt_roundtrip_witness :
    PointDecrypt (PointEncrypt (ecScalarBaseMult 3) (11 : Pt) 5) ⟨ecScalarBaseMult 3, 3⟩ = (11 : Pt) :=
  point_encrypt_decrypt_roundtrip 3 5 (11 : Pt) (ecScalarBaseMult 3)
    (by constructor <;> decide) (by constructor <;> decide) rfl ⟨ecScalarBaseMult 3, 3⟩ rfl

/-! ## C4: aggregation homomorphism -/

/-- C4.  For every nonempty list `S` of private keys (each honestly
carrying its public key `dᵢ·B`, with `dᵢ ∈ [1, n-1]`),
`GetPubKey(CollPrivKey(S))` equals `CollPubKey(map(GetPubKey, S))`:
`((Σ dᵢ) mod n)·B` is the point sum of the `dᵢ·B`. -/
theorem aggregation_homomorphism (S : List PrivateKey) (hne : S ≠ [])
    (hhonest : ∀ p ∈ S, p.pub = ecScalarBaseMult p.D)
    (hrange : ∀ p ∈ S, 1 ≤ p.D ∧ p.D ≤ nOrd - 1) :
    (CollPrivKey S).map GetPubKey = CollPubKey (S.map GetPubKey) := by
  cases S with
  | nil => exact absurd rfl hne
  | cons p rest =>
    simp only [CollPrivKey, GoResult.map, List.map_cons, CollPubKey]
    rw [foldl_ecAdd]
    congr 1
    rw [ecScalarBaseMult_eq, collPriv_fold_cast]
    have hp : GetPubKey p = (p.D : Pt) := hhonest p (by simp)
    have hrest : rest.map GetPubKey = rest.map (fun q => (q.D : Pt)) :=
      List.map_congr_left (fun q hq => hhonest q (by simp [hq]))
    rw [hp, hrest]
    simp [GetPubKey]

/-- Witness for C4 on the two-member committee `{3, 5}`. -/
theorem aggregation_homomorphism_witness :
    (CollPrivKey [⟨ecScalarBaseMult 3, 3⟩, ⟨ecScalarBaseMult 5, 5⟩]).map GetPubKey
      = CollPubKey ([⟨ecScalarBaseMult 3, 3⟩, ⟨ecScalarBaseMult 5, 5⟩].map GetPubKey) :=
  aggregation_homomorphism _ (by decide) (by decide) (by decide)

/-! ## C6: share-order invariance -/

/-- C6.  For every ciphertext and every pair of nonempty share vectors
that are permutations of each other, `ShareReplace` returns the same
resulting ciphertext. -/
theorem shareReplace_order_invariant (l1 l2 : List CipherText) (rct : CipherText)
    (hne : l1 ≠ []) (hperm : l1.Perm l2) :
    ShareReplace l1 rct = ShareReplace l2 rct := by
  cases l1 with
  | nil => exact absurd rfl hne
  | cons s rest =>
    cases l2 with
    | nil =>
      have := hperm.length_eq
      simp at this
    | cons s2 rest2 =>
      rw [shareReplace_eq, shareReplace_eq,
        (hperm.map CipherText.K).sum_eq, (hperm.map CipherText.C).sum_eq]

/-- Witness for C6 on a transposed pair of shares. -/
theorem shareReplace_order_invariant_witness :
    ShareReplace [⟨1, 2⟩, ⟨3, 4⟩] ⟨5, 6⟩ = ShareReplace [⟨3, 4⟩, ⟨1, 2⟩] ⟨5, 6⟩ :=
  shareReplace_order_invariant _ _ _ (by decide) (by decide)

/-! ## C7: scalar sampling -/

/-- C7.  For every successful read of `BitSize/8 + 8 = 40` random bytes
interpreted as a big-endian integer `t`, `randFieldElement` returns
exactly `(t mod (n-1)) + 1`, which lies in `[1, n-1]`; it returns an
error only when the random source fails. -/
theorem randFieldElement_spec (b : List Nat) (hlen : b.length = 40)
    (hbytes : ∀ x ∈ b, x < 256) :
    randFieldElement (some b) = some (bytesToNat b % (nOrd - 1) + 1) ∧
    1 ≤ bytesToNat b % (nOrd - 1) + 1 ∧
    bytesToNat b % (nOrd - 1) + 1 ≤ nOrd - 1 ∧
    randFieldElement none = none := by
  have h1 : bytesToNat b % (nOrd - 1) < nOrd - 1 := Nat.mod_lt _ (by decide)
  exact ⟨rfl, by omega, by omega, rfl⟩

/-- Witness for C7 on the all-zero 40-byte read. -/
theorem randFieldElement_spec_witness :
    randFieldElement (some (List.replicate 40 0))
        = some (bytesToNat (List.replicate 40 0) % (nOrd - 1) + 1) ∧
    1 ≤ bytesToNat (List.replicate 40 0) % (nOrd - 1) + 1 ∧
    bytesToNat (List.replicate 40 0) % (nOrd - 1) + 1 ≤ nOrd - 1 ∧
    randFieldElement none = none :=
  randFieldElement_spec _ (by decide) (by decide)

/-! ## C8: empty aggregation -/

/-- C8 counterexample: on an empty input collection, `CollPrivKey`,
`CollPubKey` and `ShareReplace` all hit the index expression `[0]` and
panic at runtime; none of them produces a distinct error kind. -/
theorem empty_aggregation_counterexample :
    CollPrivKey [] = .panicked ∧ CollPubKey [] = .panicked ∧
    ShareReplace [] ⟨0, 0⟩ = .panicked ∧
    CollPrivKey [] ≠ .fail .emptyAggregation ∧
    CollPubKey [] ≠ .fail .emptyAggregation ∧
    ShareReplace [] ⟨0, 0⟩ ≠ .fail .emptyAggregation := by
  refine ⟨rfl, rfl, rfl, ?_, ?_, ?_⟩ <;> decide

/-- C8 amended: on an empty input collection, `CollPrivKey`,
`CollPubKey` and `ShareReplace` each fail fast with an
index-out-of-range runtime panic — they never return a zero value, but
they do not return a distinct error kind either. -/
theorem empty_aggregation_panics (rct : CipherText) :
    CollPrivKey ([] : List PrivateKey) = .panicked ∧
    CollPubKey ([] : List Pt) = .panicked ∧
    ShareReplace [] rct = .panicked :=
  ⟨rfl, rfl, rfl⟩

/-- Witness for the amended C8 at a concrete raw ciphertext. -/
theorem empty_aggregation_panics_witness :
    CollPrivKey ([] : List PrivateKey) = .panicked ∧
    CollPubKey ([] : List Pt) = .panicked ∧
    ShareReplace [] ⟨1, 2⟩ = .panicked :=
  empty_aggregation_panics ⟨1, 2⟩

/-! ## Σ-protocol lemmas -/

/-- Generic completeness of the Σ-protocol: a `ProofGen` output verifies
under `ProofVrf` whenever the public tuple satisfies the three claimed
relations `Y1 = y1·B`, `Y2 = y2·B`, `A = y1·A1 + y2·A2`. -/
theorem proofVrf_complete (Hh : List Pt → Nat) (y1 y2 v1 v2 : Nat) (B Y1 Y2 A1 A2 A : Pt)
    (hY1 : Y1 = (y1 : Pt) * B) (hY2 : Y2 = (y2 : Pt) * B)
    (hA : A = (y1 : Pt) * A1 + (y2 : Pt) * A2) :
    ProofVrf Hh (ProofGen Hh y1 y2 B Y1 Y2 A1 A2 A v1 v2).1
      (ProofGen Hh y1 y2 B Y1 Y2 A1 A2 A v1 v2).2.1
      (ProofGen Hh y1 y2 B Y1 Y2 A1 A2 A v1 v2).2.2
      B Y1 Y2 A1 A2 A = true := by
  subst hY1 hY2 hA
  have e1 : ∀ (c : Nat) (P : Pt),
      ((v1 : Pt) - (c : Pt) * (y1 : Pt)) * P + (c : Pt) * ((y1 : Pt) * P) = (v1 : Pt) * P := by
    intro c P; ring
  have e2 : ∀ (c : Nat) (P : Pt),
      ((v2 : Pt) - (c : Pt) * (y2 : Pt)) * P + (c : Pt) * ((y2 : Pt) * P) = (v2 : Pt) * P := by
    intro c P; ring
  have e3 : ∀ (c : Nat),
      (((v1 : Pt) - (c : Pt) * (y1 : Pt)) * A1 + ((v2 : Pt) - (c : Pt) * (y2 : Pt)) * A2)
          + (c : Pt) * ((y1 : Pt) * A1 + (y2 : Pt) * A2)
        = (v1 : Pt) * A1 + (v2 : Pt) * A2 := by
    intro c; ring
  simp only [ProofGen, ProofVrf, ecAdd, ecScalarMult, r_response_cast, e1, e2, e3]
  simp

/-! ## C3: proof completeness -/

/-- C3.  For every nonce `ri` and private key `k` in `[1, n-1]`,
requester public key `Q`, point `rB`, and share honestly produced by
`ShareCal` with nonce `ri` (`share.K = ri·B`, `share.C = ri·Q − k·rB`),
the proof `(c, r1, r2)` returned by `ShareProofGen(ri, k, share, Q, rB)`
makes `ShareProofVry(c, r1, r2, share, k·B, Q, rB)` return `true` —
for every transcript hash and every pair of proof nonces `v1, v2`. -/
theorem share_proof_completeness (Hh : List Pt → Nat) (ri k v1 v2 : Nat)
    (hri : 1 ≤ ri ∧ ri ≤ nOrd - 1) (hk : 1 ≤ k ∧ k ≤ nOrd - 1)
    (Q rB : Pt) (priv : PrivateKey) (hpriv : priv = ⟨ecScalarBaseMult k, k⟩)
    (share : CipherText) (hshare : share = ShareCal Q rB priv ri)
    (nodePubKey : Pt) (hnode : nodePubKey = ecScalarBaseMult k) :
    ShareProofVry Hh (ShareProofGen Hh ri priv share Q rB v1 v2).1
      (ShareProofGen Hh ri priv share Q rB v1 v2).2.1
      (ShareProofGen Hh ri priv share Q rB v1 v2).2.2
      share nodePubKey Q rB = true := by
  subst hpriv hshare hnode
  simp only [ShareProofGen, ShareProofVry]
  exact proofVrf_complete Hh ri k v1 v2 ecGenerator _ _ Q (ecNegY rB) _
    (by simp [ShareCal, ecScalarBaseMult, ecGenerator])
    (by simp [ecScalarBaseMult, ecGenerator])
    (by simp [ShareCal, ecScalarBaseMult, ecAdd, ecNegY, ecScalarMult, ecGenerator]; ring_nf)

/-- Witness for C3: committee key `3`, share nonce `2`, proof nonces
`4, 6`, requester key `7`, ciphertext left point `9`, and the transcript
hash that sums the canonical representatives of the hashed points. -/
theorem share_proof_completeness_witness :
    ShareProofVry (fun l => (l.map ZMod.val).sum)
      (ShareProofGen (fun l => (l.map ZMod.val).sum) 2 ⟨ecScalarBaseMult 3, 3⟩
        (ShareCal 7 9 ⟨ecScalarBaseMult 3, 3⟩ 2) 7 9 4 6).1
      (ShareProofGen (fun l => (l.map ZMod.val).sum) 2 ⟨ecScalarBaseMult 3, 3⟩
        (ShareCal 7 9 ⟨ecScalarBaseMult 3, 3⟩ 2) 7 9 4 6).2.1
      (ShareProofGen (fun l => (l.map ZMod.val).sum) 2 ⟨ecScalarBaseMult 3, 3⟩
        (ShareCal 7 9 ⟨ecScalarBaseMult 3, 3⟩ 2) 7 9 4 6).2.2
      (ShareCal 7 9 ⟨ecScalarBaseMult 3, 3⟩ 2) (ecScalarBaseMult 3) 7 9 = true :=
  share_proof_completeness (fun l => (l.map ZMod.val).sum) 2 3 4 6
    (by constructor <;> decide) (by constructor <;> decide) 7 9 _ rfl _ rfl _ rfl

/-! ## C5: proof component range (corrected) -/

/-- C5 counterexample: the challenge `c` is the raw 32-byte digest value
and is not reduced mod `n`; a digest value of `nOrd` (admissible for a
32-byte digest, since `nOrd < 2^256`) yields a proof whose first
component is not in `[0, n)`. -/
theorem proof_component_range_counterexample :
    nOrd < 2 ^ 256 ∧
    ¬ ((ProofGen (fun _ => nOrd) 1 1 1 1 1 1 1 1 2 2).1 < nOrd) := by
  constructor <;> decide

/-- C5 amended: the response components `r1` and `r2` of every proof
returned by `ProofGen` (equivalently `ProofGenNoB` / `ShareProofGen`)
lie in `[0, n)`; the challenge component `c` is the digest value used
as-is, lying in `[0, 2^256)` for a 32-byte digest but not necessarily
below `n`. -/
theorem proof_component_range_amended (Hh : List Pt → Nat) (y1 y2 v1 v2 ri : Nat)
    (B Y1 Y2 A1 A2 A Q rB : Pt) (priv : PrivateKey) (share : CipherText)
    (hH : ∀ t, Hh t < 2 ^ 256) :
    ((ProofGen Hh y1 y2 B Y1 Y2 A1 A2 A v1 v2).1 < 2 ^ 256 ∧
      (ProofGen Hh y1 y2 B Y1 Y2 A1 A2 A v1 v2).2.1 < nOrd ∧
      (ProofGen Hh y1 y2 B Y1 Y2 A1 A2 A v1 v2).2.2 < nOrd) ∧
    ((ProofGenNoB Hh y1 y2 Y1 Y2 A1 A2 A v1 v2).1 < 2 ^ 256 ∧
      (ProofGenNoB Hh y1 y2 Y1 Y2 A1 A2 A v1 v2).2.1 < nOrd ∧
      (ProofGenNoB Hh y1 y2 Y1 Y2 A1 A2 A v1 v2).2.2 < nOrd) ∧
    ((ShareProofGen Hh ri priv share Q rB v1 v2).1 < 2 ^ 256 ∧
      (ShareProofGen Hh ri priv share Q rB v1 v2).2.1 < nOrd ∧
      (ShareProofGen Hh ri priv share Q rB v1 v2).2.2 < nOrd) :=
  ⟨⟨hH _, r_response_lt _ _ _, r_response_lt _ _ _⟩,
   ⟨hH _, r_response_lt _ _ _, r_response_lt _ _ _⟩,
   ⟨hH _, r_response_lt _ _ _, r_response_lt _ _ _⟩⟩

/-- Witness for the amended C5 with the constant digest `5`. -/
theorem proof_component_range_amended_witness :
    (ProofGen (fun _ => 5) 1 2 1 1 1 1 1 1 3 4).1 < 2 ^ 256 ∧
    (ProofGen (fun _ => 5) 1 2 1 1 1 1 1 1 3 4).2.1 < nOrd ∧
    (ProofGen (fun _ => 5) 1 2 1 1 1 1 1 1 3 4).2.2 < nOrd :=
  (proof_component_range_amended (fun _ => 5) 1 2 3 4 6 1 1 1 1 1 1 1 1
    ⟨1, 2⟩ ⟨1, 1⟩ (by intro t; show (5 : Nat) < 2 ^ 256; decide)).1

/-! ## C9: NoB variant equivalence -/

/-- C9.  When `B` is the curve generator, `ProofGenNoB` returns the same
proof as `ProofGen` for equal sampled nonces `v1, v2`, and `ProofVrfNoB`
returns the same boolean as `ProofVrf`. -/
theorem noB_variant_equivalence (Hh : List Pt → Nat) (y1 y2 v1 v2 c r1 r2 : Nat)
    (B Y1 Y2 A1 A2 A : Pt) (hB : B = ecGenerator) :
    ProofGenNoB Hh y1 y2 Y1 Y2 A1 A2 A v1 v2
        = ProofGen Hh y1 y2 B Y1 Y2 A1 A2 A v1 v2 ∧
    ProofVrfNoB Hh c r1 r2 Y1 Y2 A1 A2 A
        = ProofVrf Hh c r1 r2 B Y1 Y2 A1 A2 A := by
  subst hB
  constructor
  · simp [ProofGen, ProofGenNoB, ecScalarMult, ecScalarBaseMult, ecGenerator, mul_one]
  · simp [ProofVrf, ProofVrfNoB, ecScalarMult, ecScalarBaseMult, ecGenerator, mul_one]

/-- Witness for C9 at concrete scalars, points and transcript hash. -/
theorem noB_variant_equivalence_witness :
    ProofGenNoB (fun l => (l.map ZMod.val).sum) 1 2 3 4 5 6 7 8 9
        = ProofGen (fun l => (l.map ZMod.val).sum) 1 2 ecGenerator 3 4 5 6 7 8 9 ∧
    ProofVrfNoB (fun l => (l.map ZMod.val).sum) 10 11 12 3 4 5 6 7
        = ProofVrf (fun l => (l.map ZMod.val).sum) 10 11 12 ecGenerator 3 4 5 6 7 :=
  noB_variant_equivalence (fun l => (l.map ZMod.val).sum) 1 2 8 9 10 11 12
    ecGenerator 3 4 5 6 7 rfl

/-! ## C1: end-to-end key switch -/

/-- Sum of a scalar list viewed in the point group. -/
def castSum (l : List Nat) : Pt := (l.map Nat.cast).sum

theorem castSum_nil : castSum [] = 0 := rfl

theorem castSum_cons (x : Nat) (l : List Nat) :
    castSum (x :: l) = (x : Pt) + castSum l := by
  simp [castSum]

/-- The point sum of the committee public keys is the cast sum of the
committee private scalars. -/
theorem sum_map_base (l : List Nat) : (l.map ecScalarBaseMult).sum = castSum l := rfl

/-- Sums of the components of honestly computed shares: the `K`s add up
to `(Σ rᵢ)·B` and the `C`s to `(Σ rᵢ)·Q − (Σ kᵢ)·rB`. -/
theorem shareCal_zip_sums (Q rB : Pt) :
    ∀ (ks ris : List Nat), ris.length = ks.length →
      ((List.zipWith (fun k ri => ShareCal Q rB ⟨ecScalarBaseMult k, k⟩ ri) ks ris).map
          CipherText.K).sum
          = castSum ris ∧
      ((List.zipWith (fun k ri => ShareCal Q rB ⟨ecScalarBaseMult k, k⟩ ri) ks ris).map
          CipherText.C).sum
          = castSum ris * Q - castSum ks * rB := by
  intro ks
  induction ks with
  | nil =>
    intro ris h
    have hnil : ris = [] := List.length_eq_zero.mp h
    subst hnil
    simp [castSum_nil]
  | cons k0 krest ih =>
    intro ris h
    cases ris with
    | nil => simp at h
    | cons r0 rrest =>
      have h' : rrest.length = krest.length := by simpa using h
      obtain ⟨hK, hC⟩ := ih rrest h'
      simp only [List.zipWith_cons_cons, List.map_cons, List.sum_cons]
      rw [hK, hC]
      simp only [castSum_cons, ShareCal, ecAdd, ecNegY, ecScalarMult, ecScalarBaseMult]
      constructor
      · ring_nf
      · ring_nf

/-- C1.  End-to-end key switch: for every committee size `m ≥ 1`,
private keys `k₁..k_m` each in `[1, n-1]`, requester key pair
`(q, Q = q·B)`, and curve point `D`: with
`P_agg = CollPubKey [k₁·B, ..., k_m·B]`, `ct = PointEncrypt(P_agg, D)`
(nonce `r`), and each `shareᵢ` honestly computed by
`ShareCal(Q, ct.K, kᵢ)` with nonce `riᵢ`,
`PointDecrypt(ShareReplace(shares, ct), q)` returns `D`. -/
theorem end_to_end_key_switch
    (ks ris : List Nat) (q r : Nat) (D : Pt)
    (hm : ks ≠ []) (hlen : ris.length = ks.length)
    (hks : ∀ k ∈ ks, 1 ≤ k ∧ k ≤ nOrd - 1)
    (hq : 1 ≤ q ∧ q ≤ nOrd - 1) (hr : 1 ≤ r ∧ r ≤ nOrd - 1)
    (hris : ∀ x ∈ ris, 1 ≤ x ∧ x ≤ nOrd - 1)
    (Q : Pt) (hQ : Q = ecScalarBaseMult q)
    (Pagg : Pt) (hPagg : CollPubKey (ks.map ecScalarBaseMult) = .ok Pagg)
    (ct : CipherText) (hct : ct = PointEncrypt Pagg D r)
    (shares : List CipherText)
    (hshares : shares
      = List.zipWith (fun k ri => ShareCal Q ct.K ⟨ecScalarBaseMult k, k⟩ ri) ks ris)
    (tct : CipherText) (htct : ShareReplace shares ct = .ok tct)
    (priv : PrivateKey) (hpriv : priv = ⟨Q, q⟩) :
    PointDecrypt tct priv = D := by
  cases ks with
  | nil => exact absurd rfl hm
  | cons k0 krest =>
  cases ris with
  | nil => simp at hlen
  | cons r0 rrest =>
    rw [collPubKey_map_base, sum_map_base] at hPagg
    injection hPagg with hPagg
    subst hpriv hct hQ hshares
    rw [List.zipWith_cons_cons, shareReplace_eq] at htct
    injection htct with htct
    obtain ⟨hsumK, hsumC⟩ := shareCal_zip_sums (ecScalarBaseMult q)
      (PointEncrypt Pagg D r).K (k0 :: krest) (r0 :: rrest) hlen
    rw [List.zipWith_cons_cons] at hsumK hsumC
    rw [← htct, hsumK, hsumC]
    rw [← hPagg]
    simp only [PointDecrypt, PointEncrypt, ecAdd, ecNegY, ecScalarMult, ecScalarBaseMult]
    ring

/-- Witness for C1 on the committee `{3, 4}` with share nonces `{5, 6}`,
requester key `7`, encryption nonce `2`, plaintext point `11`. -/
theorem end_to_end_key_switch_witness :
    PointDecrypt ⟨(11 : Pt), (88 : Pt)⟩ ⟨ecScalarBaseMult 7, 7⟩ = (11 : Pt) :=
  end_to_end_key_switch [3, 4] [5, 6] 7 2 (11 : Pt) (by decide) (by decide)
    (by decide) (by decide) (by decide) (by decide)
    (ecScalarBaseMult 7) rfl
    (ecScalarBaseMult 3 + ecScalarBaseMult 4) (by decide)
    (PointEncrypt (ecScalarBaseMult 3 + ecScalarBaseMult 4) (11 : Pt) 2) rfl
    _ rfl
    ⟨(11 : Pt), (88 : Pt)⟩ (by decide)
    ⟨ecScalarBaseMult 7, 7⟩ rfl

/-! ## C10: no argument mutation

The no-mutation claim is about the Go heap: `big.Int` values are heap
cells reached through pointers, struct copies copy the pointers, and
receiver methods such as `y.Neg(y)` write through them.  We model the
heap explicitly: a cell holds an `Int`, an address is an index, the
backend (`curve.Add`, `ScalarMult`, `ScalarBaseMult`, the digest) reads
its arguments and allocates fresh cells for its results (as the `sm2`
backend does), and every `big.Int` allocation and in-place write of the
library source is translated one line at a time.  The pure coordinate
functions of the black-box backend are abstracted as `ECFuncs`.  The
claim becomes: no operation writes to any cell that existed before the
call, hence every argument cell still holds its old value. -/

/-- The Go heap: a growable sequence of `big.Int` cells. -/
structure Heap where
  cells : List Int
  deriving DecidableEq

/-- A `*big.Int`: an index into the heap. -/
abbrev Addr := Nat

/-- Dereference a pointer (reads of unallocated addresses return 0;
they never occur in the modelled programs). -/
def Heap.read (h : Heap) (a : Addr) : Int := h.cells.getD a 0

/-- Number of allocated cells; also the address of the next allocation. -/
def Heap.len (h : Heap) : Nat := h.cells.length

/-- `new(big.Int)`-style allocation of a fresh cell holding `v`; the new
cell's address is `h.len`. -/
def Heap.alloc (h : Heap) (v : Int) : Heap := ⟨h.cells ++ [v]⟩

/-- An in-place `big.Int` receiver method (`Neg`, `Mod`, `Sub`, ...):
overwrite the cell at `a`. -/
def Heap.write (h : Heap) (a : Addr) (v : Int) : Heap := ⟨h.cells.set a v⟩

/-- The pure mathematical functions of the black-box EC backend and hash,
plus the curve constants, over which the frame property holds uniformly. -/
structure ECFuncs where
  addF : Int → Int → Int → Int → Int × Int
  mulF : Int → Int → Int → Int × Int
  baseF : Int → Int × Int
  hashF : List Int → Int
  primeP : Int
  ordN : Int

/-- A `CurvePoint`: pointers to the two coordinate cells. -/
structure HPoint where
  x : Addr
  y : Addr
  deriving DecidableEq

/-- A `CipherText` of pointers. -/
structure HCipherText where
  K : HPoint
  C : HPoint
  deriving DecidableEq

/-- An `sm2.PrivateKey` of pointers. -/
structure HPrivateKey where
  pub : HPoint
  D : Addr
  deriving DecidableEq

/-- `curve.Add(P.x, P.y, Q.x, Q.y)`: reads the four argument coordinates
and returns two freshly allocated result coordinates. -/
def goAdd (E : ECFuncs) (P Q : HPoint) (h : Heap) : HPoint × Heap :=
  (⟨h.len, h.len + 1⟩,
    (h.alloc (E.addF (h.read P.x) (h.read P.y) (h.read Q.x) (h.read Q.y)).1).alloc
      (E.addF (h.read P.x) (h.read P.y) (h.read Q.x) (h.read Q.y)).2)

/-- `curve.ScalarMult(P.x, P.y, k.Bytes())`: fresh result coordinates. -/
def goScalarMult (E : ECFuncs) (P : HPoint) (k : Addr) (h : Heap) : HPoint × Heap :=
  (⟨h.len, h.len + 1⟩,
    (h.alloc (E.mulF (h.read k) (h.read P.x) (h.read P.y)).1).alloc
      (E.mulF (h.read k) (h.read P.x) (h.read P.y)).2)

/-- `curve.ScalarBaseMult(k.Bytes())`: fresh result coordinates. -/
def goScalarBaseMult (E : ECFuncs) (k : Addr) (h : Heap) : HPoint × Heap :=
  (⟨h.len, h.len + 1⟩,
    (h.alloc (E.baseF (h.read k)).1).alloc (E.baseF (h.read k)).2)

/-- `PointEncrypt(pub, D)` at heap level: allocate the sampled nonce,
`ScalarBaseMult` for `ct.K`, `ScalarMult` for `rK`, `Add` for `ct.C`. -/
def PointEncryptH (E : ECFuncs) (pub D : HPoint) (rVal : Int) (h : Heap) :
    HCipherText × Heap :=
  let r : Addr := h.len
  let h1 := h.alloc rVal
  let kp := goScalarBaseMult E r h1
  let rk := goScalarMult E pub r kp.2
  let cp := goAdd E rk.1 D rk.2
  (⟨kp.1, cp.1⟩, cp.2)

/-- `PointDecrypt(ct, priv)` at heap level (the `ppks.go` file):
`rKx, rKy := curve.ScalarMult(ct.K, priv.D)` then the in-place
`negrKy := rKy.Neg(rKy)` — a write to the freshly allocated `rKy` cell,
not to any argument — then `curve.Add(ct.C, (rKx, negrKy))`. -/
def PointDecryptH (E : ECFuncs) (ct : HCipherText) (priv : HPrivateKey) (h : Heap) :
    HPoint × Heap :=
  let rk := goScalarMult E ct.K priv.D h
  let h2 := rk.2.write rk.1.y (-(rk.2.read rk.1.y))
  let dp := goAdd E ct.C rk.1 h2
  (dp.1, dp.2)

/-- `ShareCal(targetPubKey, rB, priv)` at heap level: the in-place
`rBkiy.Neg(rBkiy); rBkiy.Mod(rBkiy, P)` writes hit the freshly allocated
`ScalarMult` result, not the arguments. -/
def ShareCalH (E : ECFuncs) (target rB : HPoint) (priv : HPrivateKey) (riVal : Int)
    (h : Heap) : HCipherText × Heap :=
  let ri : Addr := h.len
  let h1 := h.alloc riVal
  let kp := goScalarBaseMult E ri h1
  let bk := goScalarMult E rB priv.D kp.2
  let h4 := bk.2.write bk.1.y (-(bk.2.read bk.1.y))
  let h5 := h4.write bk.1.y ((h4.read bk.1.y) % E.primeP)
  let ru := goScalarMult E target ri h5
  let cp := goAdd E bk.1 ru.1 ru.2
  (⟨kp.1, cp.1⟩, cp.2)

/-- The `ShareReplace` aggregation loop: `sigma` is a local struct copy
whose coordinate pointers are reassigned to the fresh `curve.Add`
results; the input shares are only read. -/
def shareReplaceLoop (E : ECFuncs) (rest : List HCipherText) (sigma : HCipherText)
    (h : Heap) : HCipherText × Heap :=
  match rest with
  | [] => (sigma, h)
  | t :: ts =>
    let nk := goAdd E sigma.K t.K h
    let nc := goAdd E sigma.C t.C nk.2
    shareReplaceLoop E ts ⟨nk.1, nc.1⟩ nc.2

/-- `ShareReplace(shares, rct)` at heap level (`none` = the panic on an
empty slice, which leaves the heap untouched). -/
def ShareReplaceH (E : ECFuncs) (shares : List HCipherText) (rct : HCipherText)
    (h : Heap) : Option HCipherText × Heap :=
  match shares with
  | [] => (none, h)
  | s :: rest =>
    let sg := shareReplaceLoop E rest s h
    let nc := goAdd E sg.1.C rct.C sg.2
    (some ⟨sg.1.K, nc.1⟩, nc.2)

/-- `ProofGen` at heap level: nonce allocations, three commitment
multiplications/additions, the digest (a pure function of the 18 read
coordinate values), the challenge allocation, and the response
computations, whose `Mod`/`Sub` receivers are all freshly allocated. -/
def ProofGenH (E : ECFuncs) (y1 y2 : Addr) (B Y1 Y2 A1 A2 A : HPoint)
    (v1Val v2Val : Int) (h : Heap) : (Addr × Addr × Addr) × Heap :=
  let v1 : Addr := h.len
  let h1 := h.alloc v1Val
  let v2 : Addr := h1.len
  let h2 := h1.alloc v2Val
  let t1 := goScalarMult E B v1 h2
  let t2 := goScalarMult E B v2 t1.2
  let va1 := goScalarMult E A1 v1 t2.2
  let va2 := goScalarMult E A2 v2 va1.2
  let t3 := goAdd E va1.1 va2.1 va2.2
  let h3 := t3.2
  let cVal := E.hashF [h3.read B.x, h3.read B.y, h3.read Y1.x, h3.read Y1.y,
    h3.read Y2.x, h3.read Y2.y, h3.read A1.x, h3.read A1.y, h3.read A2.x, h3.read A2.y,
    h3.read A.x, h3.read A.y, h3.read t1.1.x, h3.read t1.1.y, h3.read t2.1.x,
    h3.read t2.1.y, h3.read t3.1.x, h3.read t3.1.y]
  let c : Addr := h3.len
  let h4 := h3.alloc cVal
  let r1a : Addr := h4.len
  let h5 := h4.alloc (h4.read c * h4.read y1)
  let h6 := h5.write r1a ((h5.read r1a) % E.ordN)
  let r1b : Addr := h6.len
  let h7 := h6.alloc (h6.read v1 - h6.read r1a)
  let h8 := h7.write r1b ((h7.read r1b) % E.ordN)
  let r2a : Addr := h8.len
  let h9 := h8.alloc (h8.read c * h8.read y2)
  let h10 := h9.write r2a ((h9.read r2a) % E.ordN)
  let h11 := h10.write r2a (h10.read v2 - h10.read r2a)
  let h12 := h11.write r2a ((h11.read r2a) % E.ordN)
  ((c, r1b, r2a), h12)

/-- `ShareProofGen(ri, priv, share, targetPubKey, rB)` at heap level:
`B` points at the curve's global `Gx`, `Gy` cells; `A2` is a fresh copy
of `rB` whose `y` cell is negated and reduced in place. -/
def ShareProofGenH (E : ECFuncs) (gx gy : Addr) (ri : Addr) (priv : HPrivateKey)
    (share : HCipherText) (target rB : HPoint) (v1Val v2Val : Int) (h : Heap) :
    (Addr × Addr × Addr) × Heap :=
  let B : HPoint := ⟨gx, gy⟩
  let a2x : Addr := h.len
  let h1 := h.alloc (h.read rB.x)
  let a2y : Addr := h1.len
  let h2 := h1.alloc (h1.read rB.y)
  let h3 := h2.write a2y (-(h2.read a2y))
  let h4 := h3.write a2y ((h3.read a2y) % E.primeP)
  ProofGenH E ri priv.D B share.K priv.pub target ⟨a2x, a2y⟩ share.C v1Val v2Val h4

/-- `ProofVrf` at heap level: reconstructed commitments from fresh
backend results, rehash, fresh challenge allocation, comparison. -/
def ProofVrfH (E : ECFuncs) (c r1 r2 : Addr) (B Y1 Y2 A1 A2 A : HPoint) (h : Heap) :
    Bool × Heap :=
  let rb1 := goScalarMult E B r1 h
  let cy1 := goScalarMult E Y1 c rb1.2
  let t1 := goAdd E rb1.1 cy1.1 cy1.2
  let rb2 := goScalarMult E B r2 t1.2
  let cy2 := goScalarMult E Y2 c rb2.2
  let t2 := goAdd E rb2.1 cy2.1 cy2.2
  let ra1 := goScalarMult E A1 r1 t2.2
  let ra2 := goScalarMult E A2 r2 ra1.2
  let ca := goScalarMult E A c ra2.2
  let t3a := goAdd E ra1.1 ra2.1 ca.2
  let t3 := goAdd E t3a.1 ca.1 t3a.2
  let h9 := t3.2
  let cNewVal := E.hashF [h9.read B.x, h9.read B.y, h9.read Y1.x, h9.read Y1.y,
    h9.read Y2.x, h9.read Y2.y, h9.read A1.x, h9.read A1.y, h9.read A2.x, h9.read A2.y,
    h9.read A.x, h9.read A.y, h9.read t1.1.x, h9.read t1.1.y, h9.read t2.1.x,
    h9.read t2.1.y, h9.read t3.1.x, h9.read t3.1.y]
  let cn : Addr := h9.len
  let h10 := h9.alloc cNewVal
  (if h10.read c = h10.read cn then true else false, h10)

/-- `ShareProofVry(c, r1, r2, share, nodePubKey, targetPubKey, rB)` at
heap level. -/
def ShareProofVryH (E : ECFuncs) (gx gy : Addr) (c r1 r2 : Addr) (share : HCipherText)
    (nodePub target rB : HPoint) (h : Heap) : Bool × Heap :=
  let B : HPoint := ⟨gx, gy⟩
  let a2x : Addr := h.len
  let h1 := h.alloc (h.read rB.x)
  let a2y : Addr := h1.len
  let h2 := h1.alloc (h1.read rB.y)
  let h3 := h2.write a2y (-(h2.read a2y))
  let h4 := h3.write a2y ((h3.read a2y) % E.primeP)
  ProofVrfH E c r1 r2 B share.K nodePub target ⟨a2x, a2y⟩ share.C h4

/-- The heap `h'` agrees with `h` on the first `n` cells: nothing below
address `n` was overwritten on the way from `h` to `h'`. -/
def agreesBelow (n : Nat) (h h' : Heap) : Prop :=
  h'.cells.take n = h.cells.take n

theorem agreesBelow_refl (n : Nat) (h : Heap) : agreesBelow n h h := rfl

theorem agreesBelow_trans {n : Nat} {h h' h'' : Heap}
    (hA : agreesBelow n h h') (hB : agreesBelow n h' h'') : agreesBelow n h h'' :=
  hB.trans hA

theorem Heap.len_alloc (h : Heap) (v : Int) : (h.alloc v).len = h.len + 1 := by
  simp [Heap.alloc, Heap.len]

theorem Heap.len_write (h : Heap) (a : Addr) (v : Int) : (h.write a v).len = h.len := by
  simp [Heap.write, Heap.len]

/-- Allocation does not disturb cells below any `n` within the old heap. -/
theorem agreesBelow_alloc_of {n : Nat} {h h' : Heap} (v : Int)
    (hle : n ≤ h'.len) (hA : agreesBelow n h h') : agreesBelow n h (h'.alloc v) := by
  unfold agreesBelow Heap.alloc at *
  rw [List.take_eq_left_iff.mpr (Or.inr hle)]
  exact hA

/-- A write at an address at or above `n` does not disturb cells below `n`. -/
theorem agreesBelow_write_of {n : Nat} {h h' : Heap} (a : Addr) (v : Int)
    (ha : n ≤ a) (hA : agreesBelow n h h') : agreesBelow n h (h'.write a v) := by
  have hlen : (h'.cells.take n).length ≤ a := by
    simp only [List.length_take]
    omega
  unfold agreesBelow Heap.write at *
  rw [List.set_take, List.set_eq_of_length_le hlen]
  exact hA

/-- Cells below the agreement bound read back unchanged. -/
theorem read_eq_of_agreesBelow {n : Nat} {h h' : Heap} (hA : agreesBelow n h h')
    (a : Addr) (ha : a < n) : h'.read a = h.read a := by
  have h1 : (h'.cells.take n)[a]? = (h.cells.take n)[a]? := by rw [hA]
  rw [List.getElem?_take_of_lt ha, List.getElem?_take_of_lt ha] at h1
  simp [Heap.read, List.getD_eq_getElem?_getD, h1]

/-- Well-formed point: both coordinate pointers are allocated. -/
abbrev HPoint.wf (P : HPoint) (h : Heap) : Prop := P.x < h.len ∧ P.y < h.len

/-- Well-formed ciphertext/share. -/
abbrev HCipherText.wf (ct : HCipherText) (h : Heap) : Prop := ct.K.wf h ∧ ct.C.wf h

/-- Well-formed private key. -/
abbrev HPrivateKey.wf (k : HPrivateKey) (h : Heap) : Prop := k.pub.wf h ∧ k.D < h.len

/-- The coordinate values a point refers to. -/
def HPoint.vals (P : HPoint) (h : Heap) : Int × Int := (h.read P.x, h.read P.y)

/-- The values a ciphertext/share refers to. -/
def HCipherText.vals (ct : HCipherText) (h : Heap) : (Int × Int) × (Int × Int) :=
  (ct.K.vals h, ct.C.vals h)

/-- The values a private key refers to. -/
def HPrivateKey.vals (k : HPrivateKey) (h : Heap) : (Int × Int) × Int :=
  (k.pub.vals h, h.read k.D)

theorem hpoint_vals_eq {n : Nat} {h h' : Heap} (hA : agreesBelow n h h')
    (P : HPoint) (hw : P.x < n ∧ P.y < n) : P.vals h' = P.vals h := by
  unfold HPoint.vals
  rw [read_eq_of_agreesBelow hA _ hw.1, read_eq_of_agreesBelow hA _ hw.2]

theorem hciphertext_vals_eq {n : Nat} {h h' : Heap} (hA : agreesBelow n h h')
    (ct : HCipherText) (hw : (ct.K.x < n ∧ ct.K.y < n) ∧ (ct.C.x < n ∧ ct.C.y < n)) :
    ct.vals h' = ct.vals h := by
  unfold HCipherText.vals
  rw [hpoint_vals_eq hA _ hw.1, hpoint_vals_eq hA _ hw.2]

theorem hprivatekey_vals_eq {n : Nat} {h h' : Heap} (hA : agreesBelow n h h')
    (k : HPrivateKey) (hw : (k.pub.x < n ∧ k.pub.y < n) ∧ k.D < n) :
    k.vals h' = k.vals h := by
  unfold HPrivateKey.vals
  rw [hpoint_vals_eq hA _ hw.1, read_eq_of_agreesBelow hA _ hw.2]

theorem goAdd_len (E : ECFuncs) (P Q : HPoint) (h : Heap) :
    (goAdd E P Q h).2.len = h.len + 2 := by
  simp [goAdd, Heap.len_alloc]

theorem goScalarMult_len (E : ECFuncs) (P : HPoint) (k : Addr) (h : Heap) :
    (goScalarMult E P k h).2.len = h.len + 2 := by
  simp [goScalarMult, Heap.len_alloc]

theorem goScalarBaseMult_len (E : ECFuncs) (k : Addr) (h : Heap) :
    (goScalarBaseMult E k h).2.len = h.len + 2 := by
  simp [goScalarBaseMult, Heap.len_alloc]

theorem goAdd_fst (E : ECFuncs) (P Q : HPoint) (h : Heap) :
    (goAdd E P Q h).1 = ⟨h.len, h.len + 1⟩ := rfl

theorem goScalarMult_fst (E : ECFuncs) (P : HPoint) (k : Addr) (h : Heap) :
    (goScalarMult E P k h).1 = ⟨h.len, h.len + 1⟩ := rfl

theorem goScalarBaseMult_fst (E : ECFuncs) (k : Addr) (h : Heap) :
    (goScalarBaseMult E k h).1 = ⟨h.len, h.len + 1⟩ := rfl

theorem goAdd_agrees {n : Nat} {h h' : Heap} (E : ECFuncs) (P Q : HPoint)
    (hle : n ≤ h'.len) (hA : agreesBelow n h h') :
    agreesBelow n h (goAdd E P Q h').2 := by
  simp only [goAdd]
  exact agreesBelow_alloc_of _ (by simp only [Heap.len_alloc]; omega)
    (agreesBelow_alloc_of _ hle hA)

theorem goScalarMult_agrees {n : Nat} {h h' : Heap} (E : ECFuncs) (P : HPoint) (k : Addr)
    (hle : n ≤ h'.len) (hA : agreesBelow n h h') :
    agreesBelow n h (goScalarMult E P k h').2 := by
  simp only [goScalarMult]
  exact agreesBelow_alloc_of _ (by simp only [Heap.len_alloc]; omega)
    (agreesBelow_alloc_of _ hle hA)

theorem goScalarBaseMult_agrees {n : Nat} {h h' : Heap} (E : ECFuncs) (k : Addr)
    (hle : n ≤ h'.len) (hA : agreesBelow n h h') :
    agreesBelow n h (goScalarBaseMult E k h').2 := by
  simp only [goScalarBaseMult]
  exact agreesBelow_alloc_of _ (by simp only [Heap.len_alloc]; omega)
    (agreesBelow_alloc_of _ hle hA)

theorem pointEncryptH_agrees (E : ECFuncs) (pub D : HPoint) (rv : Int) (h : Heap)
    (n : Nat) (hn : n ≤ h.len) : agreesBelow n h (PointEncryptH E pub D rv h).2 := by
  simp only [PointEncryptH]
  repeat
    first
    | refine goAdd_agrees _ _ _ (by first | (simp only [goAdd_len, goScalarMult_len, goScalarBaseMult_len, goAdd_fst, goScalarMult_fst, goScalarBaseMult_fst, Heap.len_alloc, Heap.len_write]; omega) | omega) ?_
    | refine goScalarMult_agrees _ _ _ (by first | (simp only [goAdd_len, goScalarMult_len, goScalarBaseMult_len, goAdd_fst, goScalarMult_fst, goScalarBaseMult_fst, Heap.len_alloc, Heap.len_write]; omega) | omega) ?_
    | refine goScalarBaseMult_agrees _ _ (by first | (simp only [goAdd_len, goScalarMult_len, goScalarBaseMult_len, goAdd_fst, goScalarMult_fst, goScalarBaseMult_fst, Heap.len_alloc, Heap.len_write]; omega) | omega) ?_
    | refine agreesBelow_alloc_of _ (by first | (simp only [goAdd_len, goScalarMult_len, goScalarBaseMult_len, goAdd_fst, goScalarMult_fst, goScalarBaseMult_fst, Heap.len_alloc, Heap.len_write]; omega) | omega) ?_
    | refine agreesBelow_write_of _ _ (by first | (simp only [goAdd_len, goScalarMult_len, goScalarBaseMult_len, goAdd_fst, goScalarMult_fst, goScalarBaseMult_fst, Heap.len_alloc, Heap.len_write]; omega) | omega) ?_
    | exact agreesBelow_refl n h

theorem pointDecryptH_agrees (E : ECFuncs) (ct : HCipherText) (priv : HPrivateKey)
    (h : Heap) (n : Nat) (hn : n ≤ h.len) :
    agreesBelow n h (PointDecryptH E ct priv h).2 := by
  simp only [PointDecryptH]
  repeat
    first
    | refine goAdd_agrees _ _ _ (by first | (simp only [goAdd_len, goScalarMult_len, goScalarBaseMult_len, goAdd_fst, goScalarMult_fst, goScalarBaseMult_fst, Heap.len_alloc, Heap.len_write]; omega) | omega) ?_
    | refine goScalarMult_agrees _ _ _ (by first | (simp only [goAdd_len, goScalarMult_len, goScalarBaseMult_len, goAdd_fst, goScalarMult_fst, goScalarBaseMult_fst, Heap.len_alloc, Heap.len_write]; omega) | omega) ?_
    | refine goScalarBaseMult_agrees _ _ (by first | (simp only [goAdd_len, goScalarMult_len, goScalarBaseMult_len, goAdd_fst, goScalarMult_fst, goScalarBaseMult_fst, Heap.len_alloc, Heap.len_write]; omega) | omega) ?_
    | refine agreesBelow_alloc_of _ (by first | (simp only [goAdd_len, goScalarMult_len, goScalarBaseMult_len, goAdd_fst, goScalarMult_fst, goScalarBaseMult_fst, Heap.len_alloc, Heap.len_write]; omega) | omega) ?_
    | refine agreesBelow_write_of _ _ (by first | (simp only [goAdd_len, goScalarMult_len, goScalarBaseMult_len, goAdd_fst, goScalarMult_fst, goScalarBaseMult_fst, Heap.len_alloc, Heap.len_write]; omega) | omega) ?_
    | exact agreesBelow_refl n h

theorem shareCalH_agrees (E : ECFuncs) (target rB : HPoint) (priv : HPrivateKey)
    (rv : Int) (h : Heap) (n : Nat) (hn : n ≤ h.len) :
    agreesBelow n h (ShareCalH E target rB priv rv h).2 := by
  simp only [ShareCalH]
  repeat
    first
    | refine goAdd_agrees _ _ _ (by first | (simp only [goAdd_len, goScalarMult_len, goScalarBaseMult_len, goAdd_fst, goScalarMult_fst, goScalarBaseMult_fst, Heap.len_alloc, Heap.len_write]; omega) | omega) ?_
    | refine goScalarMult_agrees _ _ _ (by first | (simp only [goAdd_len, goScalarMult_len, goScalarBaseMult_len, goAdd_fst, goScalarMult_fst, goScalarBaseMult_fst, Heap.len_alloc, Heap.len_write]; omega) | omega) ?_
    | refine goScalarBaseMult_agrees _ _ (by first | (simp only [goAdd_len, goScalarMult_len, goScalarBaseMult_len, goAdd_fst, goScalarMult_fst, goScalarBaseMult_fst, Heap.len_alloc, Heap.len_write]; omega) | omega) ?_
    | refine agreesBelow_alloc_of _ (by first | (simp only [goAdd_len, goScalarMult_len, goScalarBaseMult_len, goAdd_fst, goScalarMult_fst, goScalarBaseMult_fst, Heap.len_alloc, Heap.len_write]; omega) | omega) ?_
    | refine agreesBelow_write_of _ _ (by first | (simp only [goAdd_len, goScalarMult_len, goScalarBaseMult_len, goAdd_fst, goScalarMult_fst, goScalarBaseMult_fst, Heap.len_alloc, Heap.len_write]; omega) | omega) ?_
    | exact agreesBelow_refl n h

theorem shareReplaceLoop_len (E : ECFuncs) (rest : List HCipherText) :
    ∀ (sigma : HCipherText) (h : Heap), h.len ≤ (shareReplaceLoop E rest sigma h).2.len := by
  induction rest with
  | nil => intro sigma h; exact le_refl _
  | cons t ts ih =>
    intro sigma h
    simp only [shareReplaceLoop, goAdd]
    refine le_trans ?_ (ih _ _)
    simp only [Heap.len_alloc]
    omega

theorem shareReplaceLoop_agrees (E : ECFuncs) (rest : List HCipherText) :
    ∀ (sigma : HCipherText) (h : Heap) (n : Nat), n ≤ h.len →
      agreesBelow n h (shareReplaceLoop E rest sigma h).2 := by
  induction rest with
  | nil => intro sigma h n hn; exact agreesBelow_refl n h
  | cons t ts ih =>
    intro sigma h n hn
    simp only [shareReplaceLoop, goAdd]
    refine agreesBelow_trans ?_ (ih _ _ n ?_)
    · repeat
        first
        | refine agreesBelow_alloc_of _ (by first | (simp only [Heap.len_alloc, Heap.len_write]; omega) | omega) ?_
        | exact agreesBelow_refl n h
    · simp only [Heap.len_alloc]
      omega

theorem shareReplaceH_agrees (E : ECFuncs) (shares : List HCipherText) (rct : HCipherText)
    (h : Heap) (n : Nat) (hn : n ≤ h.len) :
    agreesBelow n h (ShareReplaceH E shares rct h).2 := by
  cases shares with
  | nil => exact agreesBelow_refl n h
  | cons s rest =>
    simp only [ShareReplaceH, goAdd]
    have hlen := shareReplaceLoop_len E rest s h
    refine agreesBelow_alloc_of _ ?_
      (agreesBelow_alloc_of _ ?_ (shareReplaceLoop_agrees E rest s h n hn))
    · simp only [Heap.len_alloc]
      omega
    · omega

theorem proofGenH_agrees (E : ECFuncs) (y1 y2 : Addr) (B Y1 Y2 A1 A2 A : HPoint)
    (v1v v2v : Int) (h : Heap) (n : Nat) (hn : n ≤ h.len) :
    agreesBelow n h (ProofGenH E y1 y2 B Y1 Y2 A1 A2 A v1v v2v h).2 := by
  simp only [ProofGenH]
  refine agreesBelow_write_of _ _ (by first | (simp only [goAdd_len, goScalarMult_len, goScalarBaseMult_len, goAdd_fst, goScalarMult_fst, goScalarBaseMult_fst, Heap.len_alloc, Heap.len_write]; omega) | omega) ?_
  refine agreesBelow_write_of _ _ (by first | (simp only [goAdd_len, goScalarMult_len, goScalarBaseMult_len, goAdd_fst, goScalarMult_fst, goScalarBaseMult_fst, Heap.len_alloc, Heap.len_write]; omega) | omega) ?_
  refine agreesBelow_write_of _ _ (by first | (simp only [goAdd_len, goScalarMult_len, goScalarBaseMult_len, goAdd_fst, goScalarMult_fst, goScalarBaseMult_fst, Heap.len_alloc, Heap.len_write]; omega) | omega) ?_
  refine agreesBelow_alloc_of _ (by first | (simp only [goAdd_len, goScalarMult_len, goScalarBaseMult_len, goAdd_fst, goScalarMult_fst, goScalarBaseMult_fst, Heap.len_alloc, Heap.len_write]; omega) | omega) ?_
  refine agreesBelow_write_of _ _ (by first | (simp only [goAdd_len, goScalarMult_len, goScalarBaseMult_len, goAdd_fst, goScalarMult_fst, goScalarBaseMult_fst, Heap.len_alloc, Heap.len_write]; omega) | omega) ?_
  refine agreesBelow_alloc_of _ (by first | (simp only [goAdd_len, goScalarMult_len, goScalarBaseMult_len, goAdd_fst, goScalarMult_fst, goScalarBaseMult_fst, Heap.len_alloc, Heap.len_write]; omega) | omega) ?_
  refine agreesBelow_write_of _ _ (by first | (simp only [goAdd_len, goScalarMult_len, goScalarBaseMult_len, goAdd_fst, goScalarMult_fst, goScalarBaseMult_fst, Heap.len_alloc, Heap.len_write]; omega) | omega) ?_
  refine agreesBelow_alloc_of _ (by first | (simp only [goAdd_len, goScalarMult_len, goScalarBaseMult_len, goAdd_fst, goScalarMult_fst, goScalarBaseMult_fst, Heap.len_alloc, Heap.len_write]; omega) | omega) ?_
  refine agreesBelow_alloc_of _ (by first | (simp only [goAdd_len, goScalarMult_len, goScalarBaseMult_len, goAdd_fst, goScalarMult_fst, goScalarBaseMult_fst, Heap.len_alloc, Heap.len_write]; omega) | omega) ?_
  refine goAdd_agrees _ _ _ (by first | (simp only [goAdd_len, goScalarMult_len, goScalarBaseMult_len, goAdd_fst, goScalarMult_fst, goScalarBaseMult_fst, Heap.len_alloc, Heap.len_write]; omega) | omega) ?_
  refine goScalarMult_agrees _ _ _ (by first | (simp only [goAdd_len, goScalarMult_len, goScalarBaseMult_len, goAdd_fst, goScalarMult_fst, goScalarBaseMult_fst, Heap.len_alloc, Heap.len_write]; omega) | omega) ?_
  refine goScalarMult_agrees _ _ _ (by first | (simp only [goAdd_len, goScalarMult_len, goScalarBaseMult_len, goAdd_fst, goScalarMult_fst, goScalarBaseMult_fst, Heap.len_alloc, Heap.len_write]; omega) | omega) ?_
  refine goScalarMult_agrees _ _ _ (by first | (simp only [goAdd_len, goScalarMult_len, goScalarBaseMult_len, goAdd_fst, goScalarMult_fst, goScalarBaseMult_fst, Heap.len_alloc, Heap.len_write]; omega) | omega) ?_
  refine goScalarMult_agrees _ _ _ (by first | (simp only [goAdd_len, goScalarMult_len, goScalarBaseMult_len, goAdd_fst, goScalarMult_fst, goScalarBaseMult_fst, Heap.len_alloc, Heap.len_write]; omega) | omega) ?_
  refine agreesBelow_alloc_of _ (by first | (simp only [goAdd_len, goScalarMult_len, goScalarBaseMult_len, goAdd_fst, goScalarMult_fst, goScalarBaseMult_fst, Heap.len_alloc, Heap.len_write]; omega) | omega) ?_
  refine agreesBelow_alloc_of _ (by first | (simp only [goAdd_len, goScalarMult_len, goScalarBaseMult_len, goAdd_fst, goScalarMult_fst, goScalarBaseMult_fst, Heap.len_alloc, Heap.len_write]; omega) | omega) ?_
  exact agreesBelow_refl n h

theorem shareProofGenH_agrees (E : ECFuncs) (gx gy ri : Addr) (priv : HPrivateKey)
    (share : HCipherText) (target rB : HPoint) (v1v v2v : Int) (h : Heap)
    (n : Nat) (hn : n ≤ h.len) :
    agreesBelow n h (ShareProofGenH E gx gy ri priv share target rB v1v v2v h).2 := by
  simp only [ShareProofGenH]
  refine agreesBelow_trans ?_
    (proofGenH_agrees E ri priv.D _ share.K priv.pub target _ share.C v1v v2v _ n ?_)
  · repeat
      first
      | refine agreesBelow_alloc_of _ (by first | (simp only [goAdd_len, goScalarMult_len, goScalarBaseMult_len, goAdd_fst, goScalarMult_fst, goScalarBaseMult_fst, Heap.len_alloc, Heap.len_write]; omega) | omega) ?_
      | refine agreesBelow_write_of _ _ (by first | (simp only [goAdd_len, goScalarMult_len, goScalarBaseMult_len, goAdd_fst, goScalarMult_fst, goScalarBaseMult_fst, Heap.len_alloc, Heap.len_write]; omega) | omega) ?_
      | exact agreesBelow_refl n h
  · simp only [Heap.len_alloc, Heap.len_write]
    omega

theorem proofVrfH_agrees (E : ECFuncs) (c r1 r2 : Addr) (B Y1 Y2 A1 A2 A : HPoint)
    (h : Heap) (n : Nat) (hn : n ≤ h.len) :
    agreesBelow n h (ProofVrfH E c r1 r2 B Y1 Y2 A1 A2 A h).2 := by
  simp only [ProofVrfH]
  refine agreesBelow_alloc_of _ (by first | (simp only [goAdd_len, goScalarMult_len, goScalarBaseMult_len, goAdd_fst, goScalarMult_fst, goScalarBaseMult_fst, Heap.len_alloc, Heap.len_write]; omega) | omega) ?_
  refine goAdd_agrees _ _ _ (by first | (simp only [goAdd_len, goScalarMult_len, goScalarBaseMult_len, goAdd_fst, goScalarMult_fst, goScalarBaseMult_fst, Heap.len_alloc, Heap.len_write]; omega) | omega) ?_
  refine goAdd_agrees _ _ _ (by first | (simp only [goAdd_len, goScalarMult_len, goScalarBaseMult_len, goAdd_fst, goScalarMult_fst, goScalarBaseMult_fst, Heap.len_alloc, Heap.len_write]; omega) | omega) ?_
  refine goScalarMult_agrees _ _ _ (by first | (simp only [goAdd_len, goScalarMult_len, goScalarBaseMult_len, goAdd_fst, goScalarMult_fst, goScalarBaseMult_fst, Heap.len_alloc, Heap.len_write]; omega) | omega) ?_
  refine goScalarMult_agrees _ _ _ (by first | (simp only [goAdd_len, goScalarMult_len, goScalarBaseMult_len, goAdd_fst, goScalarMult_fst, goScalarBaseMult_fst, Heap.len_alloc, Heap.len_write]; omega) | omega) ?_
  refine goScalarMult_agrees _ _ _ (by first | (simp only [goAdd_len, goScalarMult_len, goScalarBaseMult_len, goAdd_fst, goScalarMult_fst, goScalarBaseMult_fst, Heap.len_alloc, Heap.len_write]; omega) | omega) ?_
  refine goAdd_agrees _ _ _ (by first | (simp only [goAdd_len, goScalarMult_len, goScalarBaseMult_len, goAdd_fst, goScalarMult_fst, goScalarBaseMult_fst, Heap.len_alloc, Heap.len_write]; omega) | omega) ?_
  refine goScalarMult_agrees _ _ _ (by first | (simp only [goAdd_len, goScalarMult_len, goScalarBaseMult_len, goAdd_fst, goScalarMult_fst, goScalarBaseMult_fst, Heap.len_alloc, Heap.len_write]; omega) | omega) ?_
  refine goScalarMult_agrees _ _ _ (by first | (simp only [goAdd_len, goScalarMult_len, goScalarBaseMult_len, goAdd_fst, goScalarMult_fst, goScalarBaseMult_fst, Heap.len_alloc, Heap.len_write]; omega) | omega) ?_
  refine goAdd_agrees _ _ _ (by first | (simp only [goAdd_len, goScalarMult_len, goScalarBaseMult_len, goAdd_fst, goScalarMult_fst, goScalarBaseMult_fst, Heap.len_alloc, Heap.len_write]; omega) | omega) ?_
  refine goScalarMult_agrees _ _ _ (by first | (simp only [goAdd_len, goScalarMult_len, goScalarBaseMult_len, goAdd_fst, goScalarMult_fst, goScalarBaseMult_fst, Heap.len_alloc, Heap.len_write]; omega) | omega) ?_
  refine goScalarMult_agrees _ _ _ (by first | (simp only [goAdd_len, goScalarMult_len, goScalarBaseMult_len, goAdd_fst, goScalarMult_fst, goScalarBaseMult_fst, Heap.len_alloc, Heap.len_write]; omega) | omega) ?_
  exact agreesBelow_refl n h

theorem shareProofVryH_agrees (E : ECFuncs) (gx gy c r1 r2 : Addr) (share : HCipherText)
    (nodePub target rB : HPoint) (h : Heap) (n : Nat) (hn : n ≤ h.len) :
    agreesBelow n h (ShareProofVryH E gx gy c r1 r2 share nodePub target rB h).2 := by
  simp only [ShareProofVryH]
  refine agreesBelow_trans ?_
    (proofVrfH_agrees E c r1 r2 _ share.K nodePub target _ share.C _ n ?_)
  · repeat
      first
      | refine agreesBelow_alloc_of _ (by first | (simp only [goAdd_len, goScalarMult_len, goScalarBaseMult_len, goAdd_fst, goScalarMult_fst, goScalarBaseMult_fst, Heap.len_alloc, Heap.len_write]; omega) | omega) ?_
      | refine agreesBelow_write_of _ _ (by first | (simp only [goAdd_len, goScalarMult_len, goScalarBaseMult_len, goAdd_fst, goScalarMult_fst, goScalarBaseMult_fst, Heap.len_alloc, Heap.len_write]; omega) | omega) ?_
      | exact agreesBelow_refl n h
  · simp only [Heap.len_alloc, Heap.len_write]
    omega

/-- C10.  No argument mutation: every exported operation (`PointEncrypt`,
`PointDecrypt`, `ShareCal`, `ShareReplace`, `ShareProofGen`,
`ShareProofVry`), modelled at heap level, writes only to cells allocated
during the call — the `y`-coordinate negations act on freshly allocated
big integers (or on fresh scalar-multiplication results), and share
aggregation reassigns coordinate pointers in a local struct copy instead
of mutating the input vector — so every point, key, ciphertext and share
value passed as an argument is unchanged after the call. -/
theorem no_argument_mutation (E : ECFuncs) (h : Heap)
    (pub Dp target rB nodePub : HPoint) (ct share rct : HCipherText)
    (priv : HPrivateKey) (shares : List HCipherText)
    (gx gy ri c r1 r2 : Addr) (rv v1 v2 : Int)
    (hpub : pub.wf h) (hD : Dp.wf h) (htarget : target.wf h) (hrB : rB.wf h)
    (hnode : nodePub.wf h) (hct : ct.wf h) (hshare : share.wf h) (hrct : rct.wf h)
    (hpriv : priv.wf h) (hshares : ∀ s ∈ shares, s.wf h) :
    (agreesBelow h.len h (PointEncryptH E pub Dp rv h).2 ∧
      pub.vals (PointEncryptH E pub Dp rv h).2 = pub.vals h ∧
      Dp.vals (PointEncryptH E pub Dp rv h).2 = Dp.vals h) ∧
    (agreesBelow h.len h (PointDecryptH E ct priv h).2 ∧
      ct.vals (PointDecryptH E ct priv h).2 = ct.vals h ∧
      priv.vals (PointDecryptH E ct priv h).2 = priv.vals h) ∧
    (agreesBelow h.len h (ShareCalH E target rB priv rv h).2 ∧
      target.vals (ShareCalH E target rB priv rv h).2 = target.vals h ∧
      rB.vals (ShareCalH E target rB priv rv h).2 = rB.vals h ∧
      priv.vals (ShareCalH E target rB priv rv h).2 = priv.vals h) ∧
    (agreesBelow h.len h (ShareReplaceH E shares rct h).2 ∧
      shares.map (fun s => s.vals (ShareReplaceH E shares rct h).2)
        = shares.map (fun s => s.vals h) ∧
      rct.vals (ShareReplaceH E shares rct h).2 = rct.vals h) ∧
    (agreesBelow h.len h (ShareProofGenH E gx gy ri priv share target rB v1 v2 h).2 ∧
      share.vals (ShareProofGenH E gx gy ri priv share target rB v1 v2 h).2
        = share.vals h ∧
      priv.vals (ShareProofGenH E gx gy ri priv share target rB v1 v2 h).2
        = priv.vals h ∧
      target.vals (ShareProofGenH E gx gy ri priv share target rB v1 v2 h).2
        = target.vals h ∧
      rB.vals (ShareProofGenH E gx gy ri priv share target rB v1 v2 h).2 = rB.vals h) ∧
    (agreesBelow h.len h (ShareProofVryH E gx gy c r1 r2 share nodePub target rB h).2 ∧
      share.vals (ShareProofVryH E gx gy c r1 r2 share nodePub target rB h).2
        = share.vals h ∧
      nodePub.vals (ShareProofVryH E gx gy c r1 r2 share nodePub target rB h).2
        = nodePub.vals h ∧
      target.vals (ShareProofVryH E gx gy c r1 r2 share nodePub target rB h).2
        = target.vals h ∧
      rB.vals (ShareProofVryH E gx gy c r1 r2 share nodePub target rB h).2
        = rB.vals h) := by
  have a1 := pointEncryptH_agrees E pub Dp rv h h.len le_rfl
  have a2 := pointDecryptH_agrees E ct priv h h.len le_rfl
  have a3 := shareCalH_agrees E target rB priv rv h h.len le_rfl
  have a4 := shareReplaceH_agrees E shares rct h h.len le_rfl
  have a5 := shareProofGenH_agrees E gx gy ri priv share target rB v1 v2 h h.len le_rfl
  have a6 := shareProofVryH_agrees E gx gy c r1 r2 share nodePub target rB h h.len le_rfl
  exact ⟨⟨a1, hpoint_vals_eq a1 _ hpub, hpoint_vals_eq a1 _ hD⟩,
    ⟨a2, hciphertext_vals_eq a2 _ hct, hprivatekey_vals_eq a2 _ hpriv⟩,
    ⟨a3, hpoint_vals_eq a3 _ htarget, hpoint_vals_eq a3 _ hrB,
      hprivatekey_vals_eq a3 _ hpriv⟩,
    ⟨a4, List.map_congr_left (fun s hs => hciphertext_vals_eq a4 _ (hshares s hs)),
      hciphertext_vals_eq a4 _ hrct⟩,
    ⟨a5, hciphertext_vals_eq a5 _ hshare, hprivatekey_vals_eq a5 _ hpriv,
      hpoint_vals_eq a5 _ htarget, hpoint_vals_eq a5 _ hrB⟩,
    ⟨a6, hciphertext_vals_eq a6 _ hshare, hpoint_vals_eq a6 _ hnode,
      hpoint_vals_eq a6 _ htarget, hpoint_vals_eq a6 _ hrB⟩⟩

/-- Concrete backend functions for the C10 witness. -/
def wEC : ECFuncs :=
  { addF := fun x1 y1 x2 y2 => (x1 + x2, y1 + y2)
    mulF := fun k x y => (k * x, k * y)
    baseF := fun k => (k, k + 1)
    hashF := fun l => l.sum
    primeP := 17
    ordN := 19 }

/-- Concrete 11-cell heap for the C10 witness. -/
def wHeap : Heap := ⟨[3, 1, 4, 1, 5, 9, 2, 6, 5, 3, 5]⟩

/-- Witness for C10: the `ShareCal` conjunct at a concrete backend, heap
and arguments. -/
theorem no_argument_mutation_witness :
    agreesBelow wHeap.len wHeap (ShareCalH wEC ⟨4, 5⟩ ⟨6, 7⟩ ⟨⟨2, 3⟩, 10⟩ 7 wHeap).2 ∧
    HPoint.vals ⟨4, 5⟩ (ShareCalH wEC ⟨4, 5⟩ ⟨6, 7⟩ ⟨⟨2, 3⟩, 10⟩ 7 wHeap).2
      = HPoint.vals ⟨4, 5⟩ wHeap ∧
    HPoint.vals ⟨6, 7⟩ (ShareCalH wEC ⟨4, 5⟩ ⟨6, 7⟩ ⟨⟨2, 3⟩, 10⟩ 7 wHeap).2
      = HPoint.vals ⟨6, 7⟩ wHeap ∧
    HPrivateKey.vals ⟨⟨2, 3⟩, 10⟩ (ShareCalH wEC ⟨4, 5⟩ ⟨6, 7⟩ ⟨⟨2, 3⟩, 10⟩ 7 wHeap).2
      = HPrivateKey.vals ⟨⟨2, 3⟩, 10⟩ wHeap :=
  (no_argument_mutation wEC wHeap ⟨0, 1⟩ ⟨2, 3⟩ ⟨4, 5⟩ ⟨6, 7⟩ ⟨8, 9⟩
    ⟨⟨0, 1⟩, ⟨2, 3⟩⟩ ⟨⟨4, 5⟩, ⟨6, 7⟩⟩ ⟨⟨8, 9⟩, ⟨0, 1⟩⟩ ⟨⟨2, 3⟩, 10⟩
    [⟨⟨0, 1⟩, ⟨2, 3⟩⟩] 0 1 2 3 4 5 7 8 9
    (by decide) (by decide) (by decide) (by decide) (by decide) (by decide)
    (by decide) (by decide) (by decide) (by decide)).2.2.1

end Ppks
